import Mathlib

/-!
Verification of the `ex` remote-execution library (github.com/rwool/ex).

This file gives a shallow embedding, in Lean, of the parts of the Go source
that the specification's claims are about, and proves (or refutes) each claim
against that embedding:

* the streaming escape-sequence matcher (`escape.Processor.InsertByte`);
* the recorder's `Replay` and the `eventBuffer.ReadFrom` loop;
* the host-key-callback selection in `NewSSHTarget`;
* the idempotent `SSHTarget.Close` and `sshSession.Wait` state machines.

Go bytes are embedded as `Nat` (only equality on them is used by the code),
Go slices as `List Nat`, and Go maps as association lists whose order stands
for the (arbitrary) map iteration order; statements that depend on iteration
order are proved for every relevant order or refuted for all of them.
-/

namespace Ex

/-- A Go `byte`; the source only compares bytes for equality. -/
abbrev Byte := Nat

/-! ### Escape-sequence processor (package `escape`, `Processor.InsertByte`)

The Go `Processor` keeps `escapes : map[string]int` (sequence ↦ progress) and
`escapeFns : map[string]func()`.  We embed one map entry as an `EscEntry` and
the whole table as a `List EscEntry`; the list order plays the role of Go's
arbitrary map-iteration order. -/

structure EscEntry where
  seq : List Byte
  progress : Nat
deriving Repr, DecidableEq

/-- One iteration of the `for k, v = range ep.escapes` loop body of
`Processor.InsertByte` (part_003 lines 46-63), for a single entry: returns the
updated entry together with whether this byte completed the sequence
(`newVal == len(kB)`).

Go indexes `kB[v]` directly, which would panic for `v ≥ len(kB)`; here the
out-of-range default `b + 1` can never equal `b`, and `stepEntry_progress_lt`
shows the default is never consulted starting from a well-formed entry. -/
def stepEntry (b : Byte) (e : EscEntry) : EscEntry × Bool :=
  if e.seq.getD e.progress (b + 1) = b then
    if e.progress + 1 = e.seq.length then
      (⟨e.seq, 0⟩, true)
    else
      (⟨e.seq, e.progress + 1⟩, false)
  else if e.seq.getD 0 (b + 1) = b then
    (⟨e.seq, 1⟩, false)
  else
    (⟨e.seq, 0⟩, false)

/-- The full `for k, v = range ep.escapes` loop of `InsertByte`: every
registered sequence is updated, each independently of the others. -/
def insertByte (st : List EscEntry) (b : Byte) : List EscEntry :=
  st.map (fun e => (stepEntry b e).1)

/-- The sequences completed by byte `b`, in iteration order. -/
def matchedSeqs (st : List EscEntry) (b : Byte) : List (List Byte) :=
  (st.filter (fun e => (stepEntry b e).2)).map EscEntry.seq

/-- The callback `InsertByte` invokes for byte `b`, if any.  The Go loop
overwrites the single pair `seq`/`seqStr` on every completion, and after the
loop calls `ep.escapeFns[seqStr]()` once when `seq != nil` — so only the last
completed sequence in iteration order gets its callback invoked. -/
def firedCallback (st : List EscEntry) (b : Byte) : Option (List Byte) :=
  (matchedSeqs st b).getLast?

/-- Feed a byte stream one byte at a time through `InsertByte`; returns the
final progress table and the list of callback invocations (each identified by
its sequence), in invocation order. -/
def runBytes (st : List EscEntry) (input : List Byte) :
    List EscEntry × List (List Byte) :=
  match input with
  | [] => (st, [])
  | b :: rest =>
      let fired := (firedCallback st b).toList
      let r := runBytes (insertByte st b) rest
      (r.1, fired ++ r.2)

/-- How many times the callback registered for sequence `s` is invoked while
feeding `input` to a processor in state `st`. -/
def callbackCount (st : List EscEntry) (input : List Byte) (s : List Byte) : Nat :=
  (runBytes st input).2.count s

/-- A well-formed progress table: every registered sequence is non-empty
(precondition of `Register` in the spec) and its progress counter is a valid
index into it.  Freshly registered sequences start at progress `0`. -/
def WFTable (st : List EscEntry) : Prop :=
  ∀ e ∈ st, e.progress < e.seq.length

instance : DecidablePred WFTable := fun st =>
  inferInstanceAs (Decidable (∀ e ∈ st, e.progress < e.seq.length))

/-- `stepEntry` never changes the registered sequence itself, only its
progress counter. -/
theorem stepEntry_seq (b : Byte) (e : EscEntry) : (stepEntry b e).1.seq = e.seq := by
  unfold stepEntry
  split <;> split <;> rfl

/-- Progress counters stay valid indices: the update made by `stepEntry`
keeps `progress < length` for non-empty sequences. -/
theorem stepEntry_progress_lt (b : Byte) (e : EscEntry)
    (h : e.progress < e.seq.length) : (stepEntry b e).1.progress < e.seq.length := by
  have hpos : 0 < e.seq.length := Nat.lt_of_le_of_lt (Nat.zero_le _) h
  unfold stepEntry
  by_cases h1 : e.seq.getD e.progress (b + 1) = b
  · rw [if_pos h1]
    by_cases h2 : e.progress + 1 = e.seq.length
    · rw [if_pos h2]
      exact hpos
    · rw [if_neg h2]
      exact Nat.lt_of_le_of_ne (Nat.succ_le_of_lt h) h2
  · rw [if_neg h1]
    by_cases h3 : e.seq.getD 0 (b + 1) = b
    · rw [if_pos h3]
      rcases Nat.lt_or_ge 1 e.seq.length with hl | hl
      · exact hl
      · exfalso
        have h0 : e.progress = 0 := by omega
        rw [h0] at h1
        exact h1 h3
    · rw [if_neg h3]
      exact hpos

/-- `insertByte` preserves well-formedness of the progress table. -/
theorem insertByte_WF (st : List EscEntry) (b : Byte) (h : WFTable st) :
    WFTable (insertByte st b) := by
  intro e he
  simp only [insertByte, List.mem_map] at he
  obtain ⟨e0, he0, rfl⟩ := he
  rw [stepEntry_seq]
  exact stepEntry_progress_lt b e0 (h e0 he0)

/-- The per-sequence update described by the spec, written from its words:
for a sequence `s` with progress `p` and incoming byte `b` — if `b == s[p]`
then `p` becomes `p+1`, and when `p+1` reaches `len(s)` the sequence is
matched and `p` resets to `0`; on a mismatch `p` becomes `1` if `b == s[0]`
and `0` otherwise.  Returns the new progress and the matched flag. -/
def specStep (s : List Byte) (p : Nat) (b : Byte) : Nat × Bool :=
  if s[p]? = some b then
    if p + 1 = s.length then (0, true) else (p + 1, false)
  else if s[0]? = some b then
    (1, false)
  else
    (0, false)

/-- For a valid progress counter, the Go loop body computes exactly the
update the spec describes. -/
theorem stepEntry_eq_specStep (b : Byte) (e : EscEntry)
    (h : e.progress < e.seq.length) :
    ((stepEntry b e).1.progress, (stepEntry b e).2) = specStep e.seq e.progress b := by
  have hpos : 0 < e.seq.length := Nat.lt_of_le_of_lt (Nat.zero_le _) h
  have hp : e.seq.getD e.progress (b + 1) = e.seq[e.progress] :=
    List.getD_eq_getElem _ _ h
  have h0 : e.seq.getD 0 (b + 1) = e.seq[0] := List.getD_eq_getElem _ _ hpos
  have hp2 : e.seq[e.progress]? = some e.seq[e.progress] := List.getElem?_eq_getElem h
  have h02 : e.seq[0]? = some e.seq[0] := List.getElem?_eq_getElem hpos
  unfold stepEntry specStep
  rw [hp, h0, hp2, h02]
  simp only [Option.some.injEq]
  by_cases hb : e.seq[e.progress] = b
  · by_cases h2 : e.progress + 1 = e.seq.length <;> simp [hb, h2]
  · by_cases hb0 : e.seq[0] = b <;> simp [hb, hb0]

/-- Claim C2: For every registered sequence `s` with progress `p` and every
incoming byte `b`, one call to `Processor.InsertByte` updates `s` exactly as
the spec describes (`specStep`): if `b == s[p]` then `p` becomes `p+1`, and
when `p` reaches `len(s)` the sequence is matched and `p` resets to `0`;
otherwise `p` becomes `1` if `b == s[0]` and `0` if not.  Every registered
sequence is updated on every byte, by a per-entry map that is independent of
the other sequences. -/
theorem C2_insertByte_follows_spec (st : List EscEntry) (b : Byte)
    (h : WFTable st) :
    insertByte st b = st.map (fun e => ⟨e.seq, (specStep e.seq e.progress b).1⟩) ∧
    matchedSeqs st b =
      (st.filter (fun e => (specStep e.seq e.progress b).2)).map EscEntry.seq := by
  constructor
  · apply List.map_congr_left
    intro e he
    have hspec := stepEntry_eq_specStep b e (h e he)
    have hprog : (stepEntry b e).1.progress = (specStep e.seq e.progress b).1 :=
      congrArg Prod.fst hspec
    have hseq := stepEntry_seq b e
    cases hstep : (stepEntry b e).1 with
    | mk s p =>
        rw [hstep] at hprog hseq
        simp only at hprog hseq
        rw [hprog, hseq]
  · unfold matchedSeqs
    have hfilter : st.filter (fun e => (stepEntry b e).2) =
        st.filter (fun e => (specStep e.seq e.progress b).2) := by
      apply List.filter_congr
      intro e he
      exact congrArg Prod.snd (stepEntry_eq_specStep b e (h e he))
    rw [hfilter]

/-- Witness for `C2_insertByte_follows_spec` at a concrete table and byte. -/
theorem C2_insertByte_follows_spec_witness :
    WFTable [⟨[10, 126, 46], 1⟩] ∧
    insertByte [⟨[10, 126, 46], 1⟩] 126 =
      [⟨[10, 126, 46], (specStep [10, 126, 46] 1 126).1⟩] :=
  ⟨by decide, (C2_insertByte_follows_spec [⟨[10, 126, 46], 1⟩] 126 (by decide)).1⟩

/-- The SSH-style escape sequence `"\n~."`. -/
def sshDisconnectSeq : List Byte := [10, 126, 46]

/-- The escape sequence `"\n~!"`, sharing a two-byte common ancestor with
`sshDisconnectSeq`. -/
def sshShellSeq : List Byte := [10, 126, 33]

/-- The 18-byte interleaved input `"\n~.\n~.\n~!\n~.\n~.\n~!"`. -/
def c5Input : List Byte :=
  sshDisconnectSeq ++ sshDisconnectSeq ++ sshShellSeq ++
  sshDisconnectSeq ++ sshDisconnectSeq ++ sshShellSeq

/-- Claim C5: With exactly `"\n~."` and `"\n~!"` registered, feeding the 18-byte
input `"\n~.\n~.\n~!\n~.\n~.\n~!"` one byte at a time invokes the first
sequence's callback exactly 4 times and the second sequence's callback exactly
2 times — for both possible map-iteration orders of the two registered
sequences. -/
theorem C5_shared_prefix_counts :
    (callbackCount [⟨sshDisconnectSeq, 0⟩, ⟨sshShellSeq, 0⟩] c5Input sshDisconnectSeq = 4 ∧
     callbackCount [⟨sshDisconnectSeq, 0⟩, ⟨sshShellSeq, 0⟩] c5Input sshShellSeq = 2) ∧
    (callbackCount [⟨sshShellSeq, 0⟩, ⟨sshDisconnectSeq, 0⟩] c5Input sshDisconnectSeq = 4 ∧
     callbackCount [⟨sshShellSeq, 0⟩, ⟨sshDisconnectSeq, 0⟩] c5Input sshShellSeq = 2) := by
  decide

/-- Claim C3, counterexample: The claim says that when occurrences of two
different registered sequences are both completed by the same input byte,
each of the two callbacks is invoked once.  With `"ab"` and `"b"` registered,
the byte `98` of input `"ab"` completes both sequences (third conjunct), yet
the processor invokes only one callback in total — whichever sequence the map
iteration visits last — so for each of the two possible iteration orders the
two counts are never both `1`. -/
theorem C3_counterexample :
    ¬ (callbackCount [⟨[97, 98], 0⟩, ⟨[98], 0⟩] [97, 98] [97, 98] = 1 ∧
       callbackCount [⟨[97, 98], 0⟩, ⟨[98], 0⟩] [97, 98] [98] = 1) ∧
    ¬ (callbackCount [⟨[98], 0⟩, ⟨[97, 98], 0⟩] [97, 98] [97, 98] = 1 ∧
       callbackCount [⟨[98], 0⟩, ⟨[97, 98], 0⟩] [97, 98] [98] = 1) ∧
    matchedSeqs (insertByte [⟨[97, 98], 0⟩, ⟨[98], 0⟩] 97) 98 = [[97, 98], [98]] := by
  decide

/-- Claim C3, amended: A callback is only ever invoked for a sequence that the
current byte actually completed (never on a near-miss); whenever at least one
sequence is completed by a byte, exactly one callback is invoked; and when a
byte completes exactly one sequence, it is that sequence's callback that is
invoked.  (When one byte completes two different sequences, only the callback
of the last one in map-iteration order fires — see `C3_counterexample`.) -/
theorem C3_amended_callback_behavior (st : List EscEntry) (b : Byte) :
    (∀ s, firedCallback st b = some s → s ∈ matchedSeqs st b) ∧
    (matchedSeqs st b ≠ [] → ∃ s, firedCallback st b = some s) ∧
    (∀ s, matchedSeqs st b = [s] → firedCallback st b = some s) := by
  refine ⟨?_, ?_, ?_⟩
  · intro s hs
    have hmem : s ∈ (matchedSeqs st b).getLast? := Option.mem_def.mpr hs
    obtain ⟨hne, heq⟩ := List.mem_getLast?_eq_getLast hmem
    rw [heq]
    exact List.getLast_mem hne
  · intro hne
    refine ⟨(matchedSeqs st b).getLast hne, ?_⟩
    unfold firedCallback
    exact List.getLast?_eq_getLast_of_ne_nil hne
  · intro s hs
    unfold firedCallback
    rw [hs]
    rfl

/-- Witness for `C3_amended_callback_behavior`: after feeding `97`, the byte
`98` fires the callback of `"b"`, and `"b"` is indeed among the sequences that
byte completed. -/
theorem C3_amended_callback_behavior_witness :
    firedCallback (insertByte [⟨[97, 98], 0⟩, ⟨[98], 0⟩] 97) 98 = some [98] ∧
    [98] ∈ matchedSeqs (insertByte [⟨[97, 98], 0⟩, ⟨[98], 0⟩] 97) 98 :=
  ⟨by decide,
   (C3_amended_callback_behavior (insertByte [⟨[97, 98], 0⟩, ⟨[98], 0⟩] 97) 98).1
     [98] (by decide)⟩

/-- Claim C4, counterexample: The claim says the byte that completes a match
for one sequence cannot begin or advance any other registered sequence.  With
`"ab"` and `"bc"` registered, on input `"ab"` the byte `98` completes `"ab"`
(first conjunct) and simultaneously advances `"bc"` from progress `0` to `1`
(second conjunct); one more byte then completes the `"bc"` occurrence it
began (third conjunct). -/
theorem C4_counterexample :
    callbackCount [⟨[97, 98], 0⟩, ⟨[98, 99], 0⟩] [97, 98] [97, 98] = 1 ∧
    (runBytes [⟨[97, 98], 0⟩, ⟨[98, 99], 0⟩] [97, 98]).1 =
      [⟨[97, 98], 0⟩, ⟨[98, 99], 1⟩] ∧
    callbackCount [⟨[97, 98], 0⟩, ⟨[98, 99], 0⟩] [97, 98, 99] [98, 99] = 1 := by
  decide

/-- Claim C4, amended: The byte that completes a match is consumed by that match
only with respect to the *same* sequence: the completed sequence's counter
resets to `0`, even when that byte equals the sequence's own first byte, so it
cannot simultaneously restart that sequence.  Every other registered sequence
processes the byte independently (the table update is a per-entry map), and
the byte may begin or advance those other sequences' progress. -/
theorem C4_amended_same_sequence_reset (e : EscEntry) (b : Byte)
    (st : List EscEntry) :
    ((stepEntry b e).2 = true → (stepEntry b e).1.progress = 0) ∧
    insertByte st b = st.map (fun e2 => (stepEntry b e2).1) := by
  constructor
  · intro hm
    unfold stepEntry at hm ⊢
    by_cases h1 : e.seq.getD e.progress (b + 1) = b
    · by_cases h2 : e.progress + 1 = e.seq.length
      · rw [if_pos h1, if_pos h2]
      · rw [if_pos h1, if_neg h2] at hm
        simp at hm
    · by_cases h3 : e.seq.getD 0 (b + 1) = b
      · rw [if_neg h1, if_pos h3] at hm
        simp at hm
      · rw [if_neg h1, if_neg h3] at hm
        simp at hm
  · rfl

/-- Witness for `C4_amended_same_sequence_reset`: the byte `97` completes
`"aa"` (progress `1`) and resets its counter to `0` even though `97` is also
that sequence's first byte. -/
theorem C4_amended_same_sequence_reset_witness :
    (stepEntry 97 ⟨[97, 97], 1⟩).2 = true ∧
    (stepEntry 97 ⟨[97, 97], 1⟩).1.progress = 0 :=
  ⟨by decide, (C4_amended_same_sequence_reset ⟨[97, 97], 1⟩ 97 []).1 (by decide)⟩

/-! ### Recorder replay (package `ex`, `Recorder.Replay`)

`Replay(out, err, speedMultiplier)` walks the ordered `entries` log.  Sleeps
are unobservable here, so the embedding keeps of the `float64` multiplier only
the classification its observable control flow depends on
(`sm < 0 || math.IsInf(sm, 0) || math.IsNaN(sm)`); the two writers are
modelled as always-succeeding sinks identified by a slot, and the result is
the ordered list of (slot, bytes) writes. -/

/-- The `outputType` tag of the Go recorder (`stdout` / `stderr`). -/
inductive StreamTag
  | stdout
  | stderr
deriving Repr, DecidableEq

/-- An `outEvent` of the Go recorder: offset since baseline (opaque here),
source stream and payload bytes. -/
structure OutEvent where
  timeOffset : Nat
  source : StreamTag
  data : List Byte
deriving Repr, DecidableEq

/-- Classification of a `float64` speed multiplier, carrying exactly the
distinctions `Replay` branches on: sign, infiniteness, NaN, and the `0`/`1`
fast paths (the latter two only select sleep strategies). -/
inductive SpeedMult
  | neg
  | negInf
  | posInf
  | nan
  | zero
  | one
  | posFinite
deriving Repr, DecidableEq

/-- The guard `sm < 0 || math.IsInf(sm, 0) || math.IsNaN(sm)` of `Replay`. -/
def invalidMultiplier : SpeedMult → Bool
  | .neg | .negInf | .posInf | .nan => true
  | .zero | .one | .posFinite => false

/-- Identity of the writer a payload is delivered to: the `out` argument or
the `err` argument of `Replay`. -/
inductive WriterSlot
  | outW
  | errW
deriving Repr, DecidableEq

/-- The ways `Replay` aborts before writing anything: the
`panic("only given nil writers")` precondition, or `ErrInvalidMultiplier`. -/
inductive ReplayError
  | nilWritersPanic
  | errInvalidMultiplier
deriving Repr, DecidableEq

/-- The `color.New(color.FgGreen).Fprint` filter applied to stderr payloads:
when color output is disabled (`noColor`, the library's non-terminal default)
the bytes pass through unchanged, otherwise they are wrapped in the ANSI
green escape `ESC [ 3 2 m` and reset `ESC [ 0 m`. -/
def colorGreen (noColor : Bool) (data : List Byte) : List Byte :=
  if noColor then data else [27, 91, 51, 50, 109] ++ data ++ [27, 91, 48, 109]

/-- `Recorder.Replay` (session/auth.go lines 372-438): panic when both
writers are nil; otherwise substitute the single non-nil writer for the
missing one; reject an invalid speed multiplier before any output; then walk
the entry log in order, writing stdout payloads verbatim to the out slot and
stderr payloads through the green-color filter to the err slot. -/
def replay (entries : List OutEvent) (outGiven errGiven : Bool)
    (sm : SpeedMult) (noColor : Bool) :
    Except ReplayError (List (WriterSlot × List Byte)) :=
  if outGiven = false ∧ errGiven = false then
    .error .nilWritersPanic
  else
    let outDest : WriterSlot := if outGiven then .outW else .errW
    let errDest : WriterSlot := if errGiven then .errW else .outW
    if invalidMultiplier sm then
      .error .errInvalidMultiplier
    else
      .ok (entries.map (fun e =>
        match e.source with
        | .stdout => (outDest, e.data)
        | .stderr => (errDest, colorGreen noColor e.data)))

/-- Claim C7: With at least one non-nil writer, `Replay` with a multiplier
that is negative, `+Inf`, `-Inf` or `NaN` returns exactly
`ErrInvalidMultiplier` and performs zero writes, whatever the recorded
entries are. -/
theorem C7_replay_rejects_invalid_multiplier (entries : List OutEvent)
    (og eg : Bool) (sm : SpeedMult) (noColor : Bool)
    (hw : og = true ∨ eg = true)
    (hsm : sm = .neg ∨ sm = .posInf ∨ sm = .negInf ∨ sm = .nan) :
    replay entries og eg sm noColor = .error .errInvalidMultiplier := by
  have h1 : ¬(og = false ∧ eg = false) := by
    rcases hw with h | h <;> simp [h]
  have h2 : invalidMultiplier sm = true := by
    rcases hsm with h | h | h | h <;> simp [h, invalidMultiplier]
  unfold replay
  rw [if_neg h1]
  simp [h2]

/-- Witness for `C7_replay_rejects_invalid_multiplier` at `NaN` with both
writers given and a non-empty log. -/
theorem C7_replay_rejects_invalid_multiplier_witness :
    replay [⟨0, StreamTag.stdout, [116]⟩] true true SpeedMult.nan true =
      .error ReplayError.errInvalidMultiplier :=
  C7_replay_rejects_invalid_multiplier [⟨0, StreamTag.stdout, [116]⟩] true true
    SpeedMult.nan true (Or.inl rfl) (Or.inr (Or.inr (Or.inr rfl)))

/-- Claim C6, counterexample: The claim says every event's payload bytes are
written unmodified to the writer matching its stream tag.  A recording whose
only event is stderr byte `120`, replayed with color output enabled, delivers
the payload wrapped in ANSI green escape codes — not the unmodified byte. -/
theorem C6_counterexample :
    replay [⟨0, StreamTag.stderr, [120]⟩] true true SpeedMult.zero false =
      .ok [(WriterSlot.errW, [27, 91, 51, 50, 109, 120, 27, 91, 48, 109])] ∧
    colorGreen false [120] ≠ [120] :=
  ⟨rfl, by decide⟩

/-- Claim C6, amended: For every recorded log and valid multiplier, `Replay`
walks the event log in order; each stdout event's payload bytes are written
unmodified to the out writer, while each stderr event's payload is written to
the err writer through the green-color filter, which leaves the bytes
unmodified only when colorization is disabled; when only one writer is given
all events fall back to it.  In particular a recording whose only event is
stdout bytes `"test\n"` replays to exactly `"test\n"` (see witness). -/
theorem C6_amended_replay_writes (entries : List OutEvent) (og eg : Bool)
    (sm : SpeedMult) (noColor : Bool)
    (hw : og = true ∨ eg = true) (hsm : invalidMultiplier sm = false) :
    replay entries og eg sm noColor =
      .ok (entries.map (fun e =>
        match e.source with
        | .stdout => ((if og then WriterSlot.outW else .errW), e.data)
        | .stderr => ((if eg then WriterSlot.errW else .outW),
            colorGreen noColor e.data))) := by
  have h1 : ¬(og = false ∧ eg = false) := by
    rcases hw with h | h <;> simp [h]
  unfold replay
  rw [if_neg h1]
  simp [hsm]

/-- Witness for `C6_amended_replay_writes`: the end-to-end scenario — the
only event is stdout `"test\n"` (`[116, 101, 115, 116, 10]`), multiplier `0`,
both writers given — writes exactly `"test\n"` to the out writer. -/
theorem C6_amended_replay_writes_witness :
    replay [⟨0, StreamTag.stdout, [116, 101, 115, 116, 10]⟩] true true
        SpeedMult.zero true =
      .ok [(WriterSlot.outW, [116, 101, 115, 116, 10])] := by
  have h := C6_amended_replay_writes
    [⟨0, StreamTag.stdout, [116, 101, 115, 116, 10]⟩] true true
    SpeedMult.zero true (Or.inl rfl) (by decide)
  simpa using h

/-! ### Connection close (`SSHTarget.Close`, ssh_target.go lines 141-165)

`Close` holds the target mutex throughout; under it the method is the
sequential program embedded below.  The Go statements with external effects
are recorded as an action trace: cancelling the connection-wide session
context, blocking on the session wait-group until every registered session's
finish callback has fired, and closing the underlying client connection. -/

/-- The externally-visible steps taken by a non-trivial `Close`, in program
order. -/
inductive CloseAction
  | cancelSessions
  | waitSessions
  | closeConn
deriving Repr, DecidableEq

/-- The `SSHTarget` state `Close` reads and writes: the `isClosed` flag, plus
an instrumentation counter of how many times the underlying connection's
`Close` has been invoked by this method. -/
structure TargetState where
  isClosed : Bool
  connCloseCount : Nat
deriving Repr, DecidableEq

/-- `SSHTarget.Close`: if `isClosed` is set, return `nil` at once; otherwise
cancel the all-sessions context, wait on the session wait-group, close the
underlying connection, set `isClosed`, and return `nil`.  The returned
`Option Unit` is the Go error value — `none` is `nil` (the method returns
`nil` on every path). -/
def sshTargetClose (st : TargetState) :
    TargetState × List CloseAction × Option Unit :=
  if st.isClosed then
    (st, [], none)
  else
    (⟨true, st.connCloseCount + 1⟩,
     [CloseAction.cancelSessions, CloseAction.waitSessions, CloseAction.closeConn],
     none)

/-- Claim C8: `Close` is idempotent: called twice on a not-yet-closed target
it returns `nil` both times, and the underlying connection is closed exactly
once.  The first call cancels the connection-wide context and waits for every
registered session to finish before closing the underlying connection (the
action trace lists those steps in program order), and the second call is a
no-op with an empty trace. -/
theorem C8_close_idempotent (st : TargetState) (h : st.isClosed = false) :
    (sshTargetClose st).2.2 = none ∧
    (sshTargetClose (sshTargetClose st).1).2.2 = none ∧
    (sshTargetClose st).1.connCloseCount = st.connCloseCount + 1 ∧
    (sshTargetClose (sshTargetClose st).1).1 = (sshTargetClose st).1 ∧
    (sshTargetClose (sshTargetClose st).1).2.1 = [] ∧
    (sshTargetClose st).2.1 =
      [CloseAction.cancelSessions, CloseAction.waitSessions,
       CloseAction.closeConn] := by
  simp [sshTargetClose, h]

/-- Witness for `C8_close_idempotent` on a freshly connected target. -/
theorem C8_close_idempotent_witness :
    (sshTargetClose ⟨false, 0⟩).2.2 = none ∧
    (sshTargetClose (sshTargetClose ⟨false, 0⟩).1).2.2 = none ∧
    (sshTargetClose ⟨false, 0⟩).1.connCloseCount = 1 :=
  let h := C8_close_idempotent ⟨false, 0⟩ rfl
  ⟨h.1, h.2.1, h.2.2.1⟩

/-! ### Session wait (`sshSession.Wait` / `SSHSession.Wait`)

`Wait` checks `ss.ctx`, which starts out nil in `newSSHSession` and is
assigned only by `Start` (`ss.ctx, cancel = context.WithCancel(ctx)`); `Run`
and every setter leave it nil.  With a nil `ss.ctx`, `Wait` returns the error
`"no command running"` without touching the result channel. -/

/-- The `sshSession` fields relevant to `Wait`: whether `ss.ctx` has been
assigned (done only by `Start`), and the configuration fields the setters and
`Run` touch. -/
structure SessionState where
  ctxSet : Bool
  hasStdIn : Bool
  hasEnv : Bool
  hasPTY : Bool
  hasWinCh : Bool
  runInvoked : Bool
deriving Repr, DecidableEq

/-- The state `newSSHSession` constructs: every field unset, `ss.ctx` nil. -/
def newSSHSessionState : SessionState := ⟨false, false, false, false, false, false⟩

/-- The session-handle operations other than `Wait`. -/
inductive SessOp
  | setInput
  | setEnv
  | setTerm
  | setWindowChange
  | run
  | start
deriving Repr, DecidableEq

/-- Effect of each operation on the session state.  Only `Start` assigns
`ss.ctx`; `Run` derives a local child context without storing it. -/
def applySessOp (st : SessionState) : SessOp → SessionState
  | .setInput => { st with hasStdIn := true }
  | .setEnv => { st with hasEnv := true }
  | .setTerm => { st with hasPTY := true }
  | .setWindowChange => { st with hasWinCh := true }
  | .run => { st with runInvoked := true }
  | .start => { st with ctxSet := true }

/-- Apply a sequence of session operations in order. -/
def applySessOps (st : SessionState) (ops : List SessOp) : SessionState :=
  ops.foldl applySessOp st

/-- What `Wait` does: with `ss.ctx` nil it returns the usage error
`"no command running"` immediately; otherwise it blocks receiving on the
result channel.  There is no panicking path. -/
inductive WaitOutcome
  | usageError
  | blockOnErrChannel
deriving Repr, DecidableEq

/-- `sshSession.Wait` (ssh_command.go lines 156-165). -/
def sshSessionWait (st : SessionState) : WaitOutcome :=
  if st.ctxSet then .blockOnErrChannel else .usageError

/-- Operations other than `Start` never assign `ss.ctx`. -/
theorem applySessOps_ctxSet (st : SessionState) (ops : List SessOp)
    (h : SessOp.start ∉ ops) : (applySessOps st ops).ctxSet = st.ctxSet := by
  induction ops generalizing st with
  | nil => rfl
  | cons op rest ih =>
      have hop : op ≠ SessOp.start := fun hc => h (hc ▸ List.mem_cons_self op rest)
      have hrest : SessOp.start ∉ rest := fun hc => h (List.mem_cons_of_mem op hc)
      have hstep : (applySessOp st op).ctxSet = st.ctxSet := by
        cases op with
        | start => exact absurd rfl hop
        | setInput => rfl
        | setEnv => rfl
        | setTerm => rfl
        | setWindowChange => rfl
        | run => rfl
      calc (applySessOps st (op :: rest)).ctxSet
          = (applySessOps (applySessOp st op) rest).ctxSet := rfl
        _ = (applySessOp st op).ctxSet := ih (applySessOp st op) hrest
        _ = st.ctxSet := hstep

/-- Claim C9: running any sequence of session operations that does not
include `Start` on a fresh session handle and then calling `Wait` returns the
distinct usage error (`"no command running"`): it neither panics (the model
has no panic outcome for `Wait`) nor blocks on the result channel. -/
theorem C9_wait_without_start (ops : List SessOp) (h : SessOp.start ∉ ops) :
    sshSessionWait (applySessOps newSSHSessionState ops) = WaitOutcome.usageError ∧
    WaitOutcome.usageError ≠ WaitOutcome.blockOnErrChannel := by
  constructor
  · unfold sshSessionWait
    rw [applySessOps_ctxSet newSSHSessionState ops h]
    rfl
  · intro hc
    cases hc

/-- Witness for `C9_wait_without_start`: configuring input and environment
and invoking `Run` — but never `Start` — leaves `Wait` returning the usage
error. -/
theorem C9_wait_without_start_witness :
    sshSessionWait (applySessOps newSSHSessionState
      [SessOp.setInput, SessOp.setEnv, SessOp.run]) = WaitOutcome.usageError :=
  (C9_wait_without_start [SessOp.setInput, SessOp.setEnv, SessOp.run]
    (by decide)).1

/-! ### `eventBuffer.ReadFrom` (session/auth.go lines 185-197)

The Go loop reads into a scratch buffer and returns only when `err == io.EOF`
(with a `nil` error); any other read error falls through silently — the bytes
of that read are still counted and written — and the loop continues.  A
source is embedded as the stream of its successive read results, and the loop
is given fuel: a `none` result means the loop is still running after that
many reads (the Go function has not returned). -/

/-- The error part of one `Read` call: `io.EOF`, or some other error
(distinguished by a code). -/
inductive ReadErr
  | eof
  | otherErr (code : Nat)
deriving Repr, DecidableEq

/-- One `r.Read(eb.scratch[:])` result: the bytes read and the error value
(`none` is `nil`). -/
structure ReadRes where
  data : List Byte
  err : Option ReadErr
deriving Repr, DecidableEq

/-- `eventBuffer.ReadFrom`, with the source embedded as the stream of its
read results (`src i` is the `i`-th read).  Returns
`some (totalRead, writes)` when the loop hits `io.EOF` within `fuel` reads —
the Go return value `(totalRead + read, nil)`, the final read's bytes counted
but not written — and `none` when the loop is still running after `fuel`
reads.  A non-EOF error takes the same path as a successful read: counted,
written, loop continues. -/
def readFromLoop (src : Nat → ReadRes) :
    Nat → Nat → Nat → List (List Byte) → Option (Nat × List (List Byte))
  | 0, _, _, _ => none
  | fuel + 1, idx, total, writes =>
      let r := src idx
      if r.err = some ReadErr.eof then
        some (total + r.data.length, writes)
      else
        readFromLoop src fuel (idx + 1) (total + r.data.length)
          (writes ++ [r.data])

/-- Claim C10: `eventBuffer.ReadFrom` returns (and then with a nil error)
only when some read from the source yields `io.EOF`; a non-EOF read error is
silently discarded and reading continues, so a source that persistently fails
with a non-EOF error makes `ReadFrom` run forever — for every fuel bound the
loop is still running. -/
theorem C10_readFrom_returns_only_on_eof (src : Nat → ReadRes) :
    (∀ fuel idx total writes out,
        readFromLoop src fuel idx total writes = some out →
        ∃ j, idx ≤ j ∧ (src j).err = some ReadErr.eof) ∧
    ((∀ i, ∃ c, (src i).err = some (ReadErr.otherErr c)) →
        ∀ fuel idx total writes, readFromLoop src fuel idx total writes = none) := by
  have main : ∀ fuel idx total writes out,
      readFromLoop src fuel idx total writes = some out →
      ∃ j, idx ≤ j ∧ (src j).err = some ReadErr.eof := by
    intro fuel
    induction fuel with
    | zero =>
        intro idx total writes out hout
        exact absurd hout (by simp [readFromLoop])
    | succ n ih =>
        intro idx total writes out hout
        unfold readFromLoop at hout
        by_cases heof : (src idx).err = some ReadErr.eof
        · exact ⟨idx, Nat.le_refl idx, heof⟩
        · rw [if_neg heof] at hout
          obtain ⟨j, hj, hje⟩ := ih (idx + 1) _ _ out hout
          exact ⟨j, Nat.le_of_succ_le hj, hje⟩
  refine ⟨main, ?_⟩
  intro hfail fuel idx total writes
  cases hout : readFromLoop src fuel idx total writes with
  | none => rfl
  | some out =>
      obtain ⟨j, _, hje⟩ := main fuel idx total writes out hout
      obtain ⟨c, hc⟩ := hfail j
      rw [hc] at hje
      cases hje

/-- Witness for `C10_readFrom_returns_only_on_eof`: a source that always
fails with a non-EOF error leaves the loop running after five reads. -/
theorem C10_readFrom_returns_only_on_eof_witness :
    readFromLoop (fun _ => ⟨[], some (ReadErr.otherErr 7)⟩) 5 0 0 [] = none :=
  (C10_readFrom_returns_only_on_eof (fun _ => ⟨[], some (ReadErr.otherErr 7)⟩)).2
    (fun _ => ⟨7, rfl⟩) 5 0 0 []

/-! ### Host-key callback selection (`NewSSHTarget`, ssh_target.go lines 41-85)

`NewSSHTarget` scans its options for a `session.HostKeyCallback` (the value
`HostKeyValidationOption` wraps), but then unconditionally overwrites the
result with `session.InsecureIgnoreHostKey()` before dialing, and
`session.NewSSH` performs the handshake with whatever callback it receives
(`sshConf.HostKeyCallback = keyCallback`).  Host-key policies are embedded by
their acceptance behavior: `InsecureIgnoreHostKey` accepts every key,
`FixedHostKey k` accepts exactly `k`. -/

/-- A host-key verification policy (`ssh.HostKeyCallback` values used by this
code base, identified by their documented acceptance behavior). -/
inductive HostKeyPolicy
  | insecureIgnoreHostKey
  | fixedHostKey (key : Nat)
deriving Repr, DecidableEq

/-- An `ex.Option` value: either a host-key callback (what
`HostKeyValidationOption` returns) or some unrelated option value (the
type-switch ignores those). -/
inductive TargetOption
  | hostKeyValidation (cb : HostKeyPolicy)
  | unrelated (n : Nat)
deriving Repr, DecidableEq

/-- `HostKeyValidationOption(callback)`: wraps the callback as an option. -/
def hostKeyValidationOption (cb : HostKeyPolicy) : TargetOption :=
  .hostKeyValidation cb

/-- The `for _, v := range opts` type-switch loop of `NewSSHTarget`
(lines 54-59): the last host-key callback among the options, if any
(`var hkc session.HostKeyCallback` starts out nil). -/
def optsHostKeyCallback (opts : List TargetOption) : Option HostKeyPolicy :=
  opts.foldl
    (fun acc o =>
      match o with
      | TargetOption.hostKeyValidation cb => some cb
      | TargetOption.unrelated _ => acc)
    none

/-- The host-key callback `NewSSHTarget` actually stores and hands to
`session.NewSSH`: after the options loop, line 60 executes
`hkc = session.InsecureIgnoreHostKey()` unconditionally, discarding whatever
the loop found. -/
def newSSHTargetPolicy (opts : List TargetOption) : HostKeyPolicy :=
  let _hkcFromOpts := optsHostKeyCallback opts
  HostKeyPolicy.insecureIgnoreHostKey

/-- Whether a policy accepts the host key the server presents:
`InsecureIgnoreHostKey` accepts any key, `FixedHostKey` exactly its own. -/
def policyAccepts : HostKeyPolicy → Nat → Bool
  | .insecureIgnoreHostKey, _ => true
  | .fixedHostKey k, serverKey => k == serverKey

/-- Outcome of the authentication handshake as far as host-key checking is
concerned. -/
inductive HandshakeOutcome
  | connected
  | hostKeyRejected
deriving Repr, DecidableEq

/-- The handshake `session.NewSSH` performs with a given callback against a
server presenting `serverKey`: it fails exactly when the callback rejects the
key. -/
def handshakeWithPolicy (p : HostKeyPolicy) (serverKey : Nat) : HandshakeOutcome :=
  if policyAccepts p serverKey then .connected else .hostKeyRejected

/-- Connecting through `NewSSHTarget`: the handshake runs with the policy the
function selected from its options. -/
def newSSHTargetConnect (opts : List TargetOption) (serverKey : Nat) :
    HandshakeOutcome :=
  handshakeWithPolicy (newSSHTargetPolicy opts) serverKey

/-- Claim C1, code evaluated at the failing input: the caller supplies
`FixedHostKey 1` via `HostKeyValidationOption` and the options loop does find
it, yet the stored policy is `InsecureIgnoreHostKey`, so connecting to a
server presenting the different key `2` succeeds — although the supplied
policy rejects that key, under which the claim (and the spec) require the
handshake to fail. -/
theorem C1_hostkey_policy_discarded :
    optsHostKeyCallback [hostKeyValidationOption (HostKeyPolicy.fixedHostKey 1)] =
      some (HostKeyPolicy.fixedHostKey 1) ∧
    newSSHTargetPolicy [hostKeyValidationOption (HostKeyPolicy.fixedHostKey 1)] =
      HostKeyPolicy.insecureIgnoreHostKey ∧
    newSSHTargetConnect [hostKeyValidationOption (HostKeyPolicy.fixedHostKey 1)] 2 =
      HandshakeOutcome.connected ∧
    handshakeWithPolicy (HostKeyPolicy.fixedHostKey 1) 2 =
      HandshakeOutcome.hostKeyRejected := by
  decide

end Ex
